import Mathlib

/-!
Verification development for the spondadmin bidirectional synchronization
engine. The repository's frontend (Vue/Nuxt) is embedded directly from the
source files; the backend sync services (`app/services/event_sync_service.py`
and the Reconciler / Push Gateway / Scheduler they implement) are not part of
the checked-out sources, so those components are modelled from the
specification text, as marked on each definition.
-/

namespace SpondSync

/-- Entity kinds reconciled by the engine: events, groups, members. -/
inductive Kind where
  | event
  | group
  | member
deriving DecidableEq

/-- Modelled from the spec: the normalized local field set of a SyncedEntity
(the Entity Mapper's output domain); the backend entity model
(`app/models`) is not in the sources. Timestamps are already parsed. -/
structure Fields where
  heading : String
  description : String
  startTime : Nat
  endTime : Nat
deriving DecidableEq

/-- A key naming one of the local entity fields. -/
inductive FieldKey where
  | heading
  | description
  | startTime
  | endTime
deriving DecidableEq

/-- Project a single field value out of a field set. -/
def getField : FieldKey → Fields → String ⊕ Nat
  | .heading, f => .inl f.heading
  | .description, f => .inl f.description
  | .startTime, f => .inr f.startTime
  | .endTime, f => .inr f.endTime

/-- Modelled from the spec: fieldwise conflict merge of a pull pass for a
record with uncommitted local edits — the remote value is applied to every
field except those currently holding an uncommitted local edit. -/
def mergeFields (dirty : List FieldKey) (lf rf : Fields) : Fields where
  heading := if FieldKey.heading ∈ dirty then lf.heading else rf.heading
  description := if FieldKey.description ∈ dirty then lf.description else rf.description
  startTime := if FieldKey.startTime ∈ dirty then lf.startTime else rf.startTime
  endTime := if FieldKey.endTime ∈ dirty then lf.endTime else rf.endTime

/-- Modelled from the spec: a loosely-typed remote record as fetched from the
remote collaborator, before Entity Mapper normalization. Required pieces may
be absent or malformed; timestamps arrive as raw strings. -/
structure RemotePayload where
  externalId : String
  heading : Option String
  description : String
  startTimeRaw : String
  endTimeRaw : String
deriving DecidableEq

/-- Modelled from the spec: Entity Mapper output — normalized fields together
with the remote identity key. -/
structure NormalizedFields where
  externalId : String
  fields : Fields
deriving DecidableEq

/-- Accumulate a decimal digit string into a number; any non-digit fails. -/
def digitsToNat : List Char → Nat → Option Nat
  | [], acc => some acc
  | c :: cs, acc =>
    if c.isDigit then digitsToNat cs (acc * 10 + (c.toNat - 48)) else none

/-- Modelled from the spec: timestamp parsing (`_parse_timestamp` of the
backend sync service, absent from the sources); an unparsable timestamp
yields `none`, which the mapper turns into a per-record error. -/
def parseTimestamp (s : String) : Option Nat :=
  match s.data with
  | [] => none
  | cs => digitsToNat cs 0

/-- Modelled from the spec: `fromRemote` of the Entity Mapper. Total over
payloads and fail-closed: a missing external id, missing heading, or
unparsable timestamp produces an error, never a partially-populated entity. -/
def fromRemote (p : RemotePayload) : Except String NormalizedFields :=
  if p.externalId = "" then
    .error ("missing external id")
  else
    match p.heading with
    | none => .error ("missing heading: " ++ p.externalId)
    | some h =>
      match parseTimestamp p.startTimeRaw with
      | none => .error ("unparsable timestamp: " ++ p.externalId)
      | some st =>
        match parseTimestamp p.endTimeRaw with
        | none => .error ("unparsable timestamp: " ++ p.externalId)
        | some et =>
          .ok { externalId := p.externalId,
                fields := { heading := h, description := p.description,
                            startTime := st, endTime := et } }

/-- Modelled from the spec: one locally persisted SyncedEntity row. The
`sync_state` column is a string; `dirty` is the set of fields holding an
uncommitted local edit (nonempty only for records awaiting a push). -/
structure LocalRecord where
  externalId : String
  fields : Fields
  syncState : String
  dirty : List FieldKey
  errorDetail : Option String
  createdAt : Nat
  updatedAt : Nat
deriving DecidableEq

/-- The local store: the persisted collection of one entity kind. -/
abbrev Store := List LocalRecord

/-- Look a record up by its `external_id` (the upsert key). -/
def lookupRec : Store → String → Option LocalRecord
  | [], _ => none
  | r :: rs, id => if r.externalId = id then some r else lookupRec rs id

/-- Replace the record holding a given `external_id`. -/
def updateRec : Store → String → LocalRecord → Store
  | [], _, _ => []
  | r :: rs, id, r' => if r.externalId = id then r' :: rs else r :: updateRec rs id r'

/-- One entry of a SyncRun's message list: a hard per-record error or a
non-fatal conflict warning. -/
inductive RunNote where
  | err (msg : String)
  | warn (msg : String)
deriving DecidableEq

/-- Modelled from the spec: the SyncRun audit row — one per Reconciler pass,
with fetched/created/updated/errors counts and per-record messages. -/
structure SyncRun where
  kind : Kind
  startedAt : Nat
  finishedAt : Nat
  fetched : Nat
  created : Nat
  updated : Nat
  errors : Nat
  notes : List RunNote
deriving DecidableEq

/-- Warning text recorded when a pull pass touches a record holding
uncommitted local edits. -/
def conflictMsg (id : String) : String :=
  "conflict: local edit preserved for " ++ id

/-- A record freshly created by a pull pass: state `remote_synced`, both
timestamps set explicitly by the Reconciler to the current instant. -/
def freshRecord (nf : NormalizedFields) (now : Nat) : LocalRecord where
  externalId := nf.externalId
  fields := nf.fields
  syncState := "remote_synced"
  dirty := []
  errorDetail := none
  createdAt := now
  updatedAt := now

/-- The record produced by a pull update of a `pending_push` record: the
remote value lands on every field except those holding an uncommitted local
edit, and state and dirty set are kept. -/
def pendingUpdate (l : LocalRecord) (nf : NormalizedFields) (now : Nat) : LocalRecord :=
  { l with fields := mergeFields l.dirty l.fields nf.fields, updatedAt := now }

/-- The record produced by a pull update of any other record: remote wins
outright and the record is forced to `remote_synced`. -/
def remoteWinsUpdate (l : LocalRecord) (nf : NormalizedFields) (now : Nat) : LocalRecord :=
  { l with fields := nf.fields, syncState := "remote_synced", dirty := [],
           updatedAt := now }

/-- Modelled from the spec: the Reconciler's per-record step. Mapper errors
increment `errors` and append the detail, and the pass continues. A record
absent locally is created in state `remote_synced` with both timestamps set
explicitly. A present record is updated remote-wins, except that a record in
`pending_push` keeps its locally edited field values and its state, and the
conflict is recorded as a non-fatal warning. -/
def processOne (now : Nat) (acc : Store × SyncRun) (p : RemotePayload) : Store × SyncRun :=
  match fromRemote p with
  | .error e =>
    (acc.1, { acc.2 with errors := acc.2.errors + 1, notes := acc.2.notes ++ [.err e] })
  | .ok nf =>
    match lookupRec acc.1 nf.externalId with
    | none =>
      (acc.1 ++ [freshRecord nf now], { acc.2 with created := acc.2.created + 1 })
    | some l =>
      if l.syncState = "pending_push" then
        (updateRec acc.1 nf.externalId (pendingUpdate l nf now),
         { acc.2 with updated := acc.2.updated + 1,
                      notes := if nf.fields = l.fields then acc.2.notes
                               else acc.2.notes ++ [.warn (conflictMsg nf.externalId)] })
      else
        (updateRec acc.1 nf.externalId (remoteWinsUpdate l nf now),
         { acc.2 with updated := acc.2.updated + 1 })

/-- Process the records of a fetched page in order. -/
def processAll (now : Nat) : List RemotePayload → Store × SyncRun → Store × SyncRun
  | [], acc => acc
  | p :: ps, acc => processAll now ps (processOne now acc p)

/-- Modelled from the spec: one Reconciler pull pass over a fetched page of
remote records, finalizing a SyncRun with the totals. -/
def pullPass (k : Kind) (remote : List RemotePayload) (now : Nat) (store : Store) :
    Store × SyncRun :=
  processAll now remote
    (store,
     { kind := k, startedAt := now, finishedAt := now,
       fetched := remote.length, created := 0, updated := 0, errors := 0, notes := [] })

/-- The successfully mapped records of a page, in order. -/
def mappedList (remote : List RemotePayload) : List NormalizedFields :=
  remote.filterMap (fun p => (fromRemote p).toOption)

/-- The external ids of the successfully mapped records of a page. -/
def mappedIds (remote : List RemotePayload) : List String :=
  (mappedList remote).map (fun nf => nf.externalId)

/-- A record with its volatile `updated_at` column removed, for stating
"identical except that updated_at advances". -/
def stripTime (r : LocalRecord) : LocalRecord :=
  { r with updatedAt := 0 }

/-- A local record already agrees with a normalized remote record: updating
it again with the same remote data changes nothing but `updated_at`. This
holds for every record a pull pass has just written. -/
def stableFor (nf : NormalizedFields) (rec : LocalRecord) : Prop :=
  (rec.syncState = "pending_push" ∧
    mergeFields rec.dirty rec.fields nf.fields = rec.fields) ∨
  (rec.syncState = "remote_synced" ∧ rec.dirty = [] ∧ rec.fields = nf.fields)

/-! ## Scheduler / Orchestrator -/

/-- Where a trigger came from; automatic timer fire or manual request. Both
go through the same in-flight guard. -/
inductive TriggerSource where
  | scheduled
  | manual
deriving DecidableEq

/-- Outcome reported by a trigger: either the pass was started, or a pass of
that kind was already in flight and nothing was done. -/
inductive TriggerOutcome where
  | started
  | alreadyRunning
deriving DecidableEq

/-- Modelled from the spec: the Orchestrator's owned state — the per-kind
in-flight set, the local store, and the append-only SyncRun history. -/
structure OrchState where
  inFlight : List Kind
  store : Store
  history : List SyncRun
deriving DecidableEq

/-- Modelled from the spec: a trigger (automatic or manual) arriving at the
Orchestrator. If a pass of that kind is already in flight the trigger is a
no-op reporting "already running"; otherwise the kind is marked in flight
and the pass begins. -/
def beginPass (_src : TriggerSource) (k : Kind) (s : OrchState) :
    TriggerOutcome × OrchState :=
  if k ∈ s.inFlight then
    (.alreadyRunning, s)
  else
    (.started, { s with inFlight := k :: s.inFlight })

/-- Modelled from the spec: completion of an in-flight pass — the Reconciler
runs over the fetched page, the SyncRun is appended, and the kind leaves the
in-flight set. -/
def finishPass (k : Kind) (remote : List RemotePayload) (t : Nat) (s : OrchState) :
    OrchState :=
  let res := pullPass k remote t s.store
  { inFlight := s.inFlight.erase k, store := res.1, history := res.2 :: s.history }

/-- The states the orchestrated system can reach from an idle initial state
with store `store0`, under any interleaving of triggers and completions. -/
inductive Reachable (store0 : Store) : OrchState → Prop where
  | init : Reachable store0 { inFlight := [], store := store0, history := [] }
  | trigger (src : TriggerSource) (k : Kind) {s : OrchState} :
      Reachable store0 s → Reachable store0 (beginPass src k s).2
  | finish (k : Kind) (remote : List RemotePayload) (t : Nat) {s : OrchState} :
      Reachable store0 s → Reachable store0 (finishPass k remote t s)

/-! ## Push Gateway and local edits -/

/-- Outcome of a Push Gateway invocation. -/
inductive PushOutcome where
  | pushed
  | precondError
  | pushFailed
deriving DecidableEq

/-- Modelled from the spec: `toRemote` of the Entity Mapper — serialize the
local fields back into the remote payload shape. -/
def toRemote (rec : LocalRecord) : RemotePayload where
  externalId := rec.externalId
  heading := some rec.fields.heading
  description := rec.fields.description
  startTimeRaw := toString rec.fields.startTime
  endTimeRaw := toString rec.fields.endTime

/-- Modelled from the spec: the Push Gateway (`pushRecord`). The caller must
hold the record in `pending_push` or `local_only`; any other state is a
precondition error: nothing is sent upstream and nothing changes locally.
Otherwise the serialized record is sent; on success the state becomes
`remote_synced`, `error_detail` is cleared and a first push adopts the
remote-assigned external id; on failure the state becomes `push_error`,
`error_detail` holds the cause, and local field values are untouched.
The third component lists the payloads actually sent upstream. -/
def pushRecord (writeResult : Except String String) (now : Nat) (rec : LocalRecord) :
    PushOutcome × LocalRecord × List RemotePayload :=
  if rec.syncState = "pending_push" ∨ rec.syncState = "local_only" then
    match writeResult with
    | .ok assignedId =>
      let newId := if rec.syncState = "local_only" then assignedId else rec.externalId
      (.pushed,
       { rec with syncState := "remote_synced", errorDetail := none,
                  dirty := [], externalId := newId, updatedAt := now },
       [toRemote rec])
    | .error cause =>
      (.pushFailed,
       { rec with syncState := "push_error", errorDetail := some cause,
                  updatedAt := now },
       [toRemote rec])
  else
    (.precondError, rec, [])

/-- Modelled from the spec: a local edit — new field values are written, the
edited keys become dirty, and a record in `remote_synced` or `push_error`
moves to `pending_push`. -/
def localEdit (newFields : Fields) (editedKeys : List FieldKey) (rec : LocalRecord) :
    LocalRecord :=
  { rec with fields := newFields, dirty := editedKeys ++ rec.dirty,
             syncState :=
               if rec.syncState = "remote_synced" ∨ rec.syncState = "push_error" then
                 "pending_push"
               else rec.syncState }

/-- Modelled from the spec: local-only creation — a record created by a user
action that has never been pushed starts in state `local_only`. -/
def createLocal (id : String) (f : Fields) (now : Nat) : LocalRecord where
  externalId := id
  fields := f
  syncState := "local_only"
  dirty := []
  errorDetail := none
  createdAt := now
  updatedAt := now

/-- The four legal values of `sync_state`. -/
def validState (s : String) : Prop :=
  s = "remote_synced" ∨ s = "pending_push" ∨ s = "local_only" ∨ s = "push_error"

instance (s : String) : Decidable (validState s) := by
  unfold validState
  infer_instance

/-- Every record of a store carries a legal `sync_state`. -/
def storeValid (st : Store) : Prop :=
  ∀ r ∈ st, validState r.syncState

instance (st : Store) : Decidable (storeValid st) := by
  unfold storeValid
  exact List.decidableBAll _ st

/-! ## ResponseSet normalization -/

/-- Modelled from the spec: the normalized attendance data of an Event —
three sets of participant identifiers. -/
structure ResponseSet where
  accepted : List String
  declined : List String
  unanswered : List String
deriving DecidableEq

/-- Modelled from the spec: the flat id-list upstream payload shape, with one
uid bucket per answer category. -/
structure FlatResponses where
  acceptedUids : List String
  declinedUids : List String
  unansweredUids : List String
deriving DecidableEq

/-- Modelled from the spec: one entry of the nested per-response-object
upstream payload shape — a participant identifier with an optional raw
answer string. -/
structure RawAnswer where
  uid : String
  answer : Option String
deriving DecidableEq

/-- Modelled from the spec: the category a raw per-participant answer falls
into; a missing or unrecognized answer counts as unanswered, so every
participant lands in exactly one category. -/
def answerCategory (a : Option String) : String :=
  match a with
  | none => "unanswered"
  | some s =>
    if s = "accepted" then "accepted"
    else if s = "declined" then "declined"
    else "unanswered"

/-- Modelled from the spec: normalization of the nested per-response-object
shape into a ResponseSet. -/
def normalizeNested (raw : List RawAnswer) : ResponseSet where
  accepted := (raw.filter (fun r => answerCategory r.answer == "accepted")).map (fun r => r.uid)
  declined := (raw.filter (fun r => answerCategory r.answer == "declined")).map (fun r => r.uid)
  unanswered := (raw.filter (fun r => answerCategory r.answer == "unanswered")).map (fun r => r.uid)

/-- Modelled from the spec: normalization of the flat id-list shape into a
ResponseSet. -/
def normalizeFlat (f : FlatResponses) : ResponseSet where
  accepted := f.acceptedUids
  declined := f.declinedUids
  unanswered := f.unansweredUids

/-- The invited population of the nested shape: every identifier in the raw
answer list. -/
def invitedOfNested (raw : List RawAnswer) : List String :=
  raw.map (fun r => r.uid)

/-- Two ResponseSets hold the same participants in each category. -/
def sameResponseSet (a b : ResponseSet) : Prop :=
  (∀ u, u ∈ a.accepted ↔ u ∈ b.accepted) ∧
  (∀ u, u ∈ a.declined ↔ u ∈ b.declined) ∧
  (∀ u, u ∈ a.unanswered ↔ u ∈ b.unanswered)

/-- The three categories of a ResponseSet are pairwise disjoint and their
union is exactly the given invited population. -/
def partitions (rs : ResponseSet) (invited : List String) : Prop :=
  (∀ u, ¬(u ∈ rs.accepted ∧ u ∈ rs.declined)) ∧
  (∀ u, ¬(u ∈ rs.accepted ∧ u ∈ rs.unanswered)) ∧
  (∀ u, ¬(u ∈ rs.declined ∧ u ∈ rs.unanswered)) ∧
  (∀ u, u ∈ invited ↔ (u ∈ rs.accepted ∨ u ∈ rs.declined ∨ u ∈ rs.unanswered))

end SpondSync

namespace SpondFrontend

/-- The visual configuration of one sync badge variant
(`frontend/components/SyncStatusBadge.vue`). -/
structure BadgeConfig where
  color : String
  icon : String
  label : String
deriving DecidableEq

/-- The `statusConfig` record of `SyncStatusBadge.vue`: status token to
badge configuration. -/
def statusConfigList : List (String × BadgeConfig) :=
  [("synced", { color := "green", icon := "i-heroicons-check-circle", label := "Synced" }),
   ("pending", { color := "amber", icon := "i-heroicons-clock", label := "Pending" }),
   ("local_only", { color := "gray", icon := "i-heroicons-computer-desktop", label := "Local Only" }),
   ("error", { color := "red", icon := "i-heroicons-exclamation-circle", label := "Error" })]

/-- Indexing `statusConfig[status]` on the string-keyed record. -/
def lookupConfig (s : String) : Option BadgeConfig :=
  (statusConfigList.find? (fun e => e.1 == s)).map (fun e => e.2)

/-- The `statusConfig.synced` entry. -/
def syncedConfig : BadgeConfig where
  color := "green"
  icon := "i-heroicons-check-circle"
  label := "Synced"

/-- The badge's `config` computed value: the `status` prop defaults to
`synced` when absent (`withDefaults`), an empty string is replaced by
`synced` (`props.status || 'synced'`), and an unknown token falls back to
the `synced` entry (`statusConfig[status] || statusConfig.synced`). -/
def badgeConfig (status : Option String) : BadgeConfig :=
  let s0 := status.getD "synced"
  let s1 := if s0 = "" then "synced" else s0
  (lookupConfig s1).getD syncedConfig

/-- The event detail page's badge binding
(`pages/dashboard/events/[id].vue`): `event.sync_status || 'synced'`. -/
def detailPageBadgeStatus (syncStatus : Option String) : String :=
  match syncStatus with
  | none => "synced"
  | some v => if v = "" then "synced" else v

/-- A toast notification as issued by `useToast().add`. -/
structure Toast where
  title : String
  description : String
  color : String
deriving DecidableEq

/-- An HTTP request issued through the API composable
(`frontend/composables/useApi.ts`). -/
structure ApiCall where
  path : String
  method : String
  params : List (String × String)
deriving DecidableEq

/-- The observable effects of one `handleSync` invocation on the events list
page: toasts shown, API calls issued, and whether the `syncing` flag was
ever set. -/
structure SyncEffects where
  toasts : List Toast
  calls : List ApiCall
  syncingSet : Bool
deriving DecidableEq

/-- Effects of `handleSync` when no group is selected: an error toast, no
API call, and the `syncing` flag untouched. -/
def noGroupEffects : SyncEffects where
  toasts := [{ title := "Error", description := "Please select a group first", color := "red" }]
  calls := []
  syncingSet := false

/-- `handleSync` of `pages/dashboard/events/index.vue`: a missing or empty
`authStore.selectedGroupId` returns early with an error toast; otherwise the
`syncing` flag is set and `api.syncEvents` posts to `/events/sync` with the
group id, toasting success or failure. -/
def handleSync (selectedGroupId : Option String) (syncSucceeds : Bool) : SyncEffects :=
  match selectedGroupId with
  | none => noGroupEffects
  | some g =>
    if g = "" then noGroupEffects
    else
      { toasts := [if syncSucceeds then
                     { title := "Success", description := "Events synced successfully",
                       color := "green" }
                   else
                     { title := "Error", description := "Failed to sync events",
                       color := "red" }],
        calls := [{ path := "/events/sync", method := "POST",
                    params := [("group_id", g), ("include_hidden", "true")] }],
        syncingSet := true }

end SpondFrontend

namespace SpondSync

/-! ## Concrete inputs used by scenario theorems and witnesses -/

/-- A well-formed remote event payload. -/
def ev1 : RemotePayload where
  externalId := "E1"
  heading := some ("Practice")
  description := "weekly session"
  startTimeRaw := "100"
  endTimeRaw := "200"

/-- A remote event payload whose start timestamp does not parse. -/
def ev2 : RemotePayload where
  externalId := "E2"
  heading := some ("Match")
  description := ""
  startTimeRaw := "not-a-timestamp"
  endTimeRaw := "300"

/-- Another well-formed remote event payload. -/
def ev3 : RemotePayload where
  externalId := "E3"
  heading := some ("Meeting")
  description := ""
  startTimeRaw := "400"
  endTimeRaw := "500"

/-- A sample field set. -/
def sampleFields : Fields where
  heading := "Local title"
  description := "local description"
  startTime := 10
  endTime := 20

/-- A record that mirrors the remote (state `remote_synced`). -/
def syncedRec : LocalRecord where
  externalId := "E9"
  fields := sampleFields
  syncState := "remote_synced"
  dirty := []
  errorDetail := none
  createdAt := 1
  updatedAt := 1

/-- A record holding an uncommitted local edit (state `pending_push`). -/
def pendingRec : LocalRecord where
  externalId := "E1"
  fields := sampleFields
  syncState := "pending_push"
  dirty := [FieldKey.heading]
  errorDetail := none
  createdAt := 1
  updatedAt := 1

/-- An orchestrator state with an events pass in flight, reached by one
manual trigger from the idle initial state. -/
def inFlightState : OrchState :=
  (beginPass TriggerSource.manual Kind.event
    { inFlight := [], store := [], history := [] }).2

/-! ## C3: partial-failure scenario -/

/-- C3: pulling a page of 3 remote events where event #2 has an unparsable
timestamp finalizes the SyncRun with fetched=3, created=2, updated=0,
errors=1, the error detail is appended, and events #1 and #3 exist locally
in state remote_synced (event #2 was not created). -/
theorem pull_partial_failure_scenario :
    (pullPass Kind.event [ev1, ev2, ev3] 7 []).2.fetched = 3 ∧
    (pullPass Kind.event [ev1, ev2, ev3] 7 []).2.created = 2 ∧
    (pullPass Kind.event [ev1, ev2, ev3] 7 []).2.updated = 0 ∧
    (pullPass Kind.event [ev1, ev2, ev3] 7 []).2.errors = 1 ∧
    (pullPass Kind.event [ev1, ev2, ev3] 7 []).2.notes =
      [RunNote.err ("unparsable timestamp: E2")] ∧
    (lookupRec (pullPass Kind.event [ev1, ev2, ev3] 7 []).1 ("E1")).map
      (fun r => r.syncState) = some ("remote_synced") ∧
    (lookupRec (pullPass Kind.event [ev1, ev2, ev3] 7 []).1 ("E3")).map
      (fun r => r.syncState) = some ("remote_synced") ∧
    lookupRec (pullPass Kind.event [ev1, ev2, ev3] 7 []).1 ("E2") = none := by
  decide

/-! ## C1: at most one pass per kind -/

/-- C1: in every reachable orchestrator state, a trigger (manual or
scheduled) for a kind whose pass is already in flight reports
"already running" and changes nothing: the store is untouched (no fetches,
no upserts) and no SyncRun is recorded. -/
theorem orch_single_pass_per_kind (store0 : Store) (s : OrchState)
    (_hreach : Reachable store0 s) (src : TriggerSource) (k : Kind)
    (hin : k ∈ s.inFlight) :
    (beginPass src k s).1 = TriggerOutcome.alreadyRunning ∧
    (beginPass src k s).2 = s ∧
    (beginPass src k s).2.store = s.store ∧
    (beginPass src k s).2.history = s.history := by
  unfold beginPass
  rw [if_pos hin]
  exact ⟨rfl, rfl, rfl, rfl⟩

/-- Witness for C1 at a concrete reachable state: one manual events trigger
is in flight, and a second events trigger is a no-op reporting
"already running". -/
theorem orch_single_pass_per_kind_witness :
    Reachable ([] : Store) inFlightState ∧
    Kind.event ∈ inFlightState.inFlight ∧
    (beginPass TriggerSource.manual Kind.event inFlightState).1 =
      TriggerOutcome.alreadyRunning ∧
    (beginPass TriggerSource.manual Kind.event inFlightState).2 = inFlightState := by
  have hr : Reachable ([] : Store) inFlightState :=
    Reachable.trigger TriggerSource.manual Kind.event Reachable.init
  have hin : Kind.event ∈ inFlightState.inFlight := by decide
  have h := orch_single_pass_per_kind [] inFlightState hr TriggerSource.manual Kind.event hin
  exact ⟨hr, hin, h.1, h.2.1⟩

/-! ## C6: push precondition -/

/-- C6: the Push Gateway sends a record upstream only from `pending_push` or
`local_only`; invoked on a record in any other state it is a no-op returning
a precondition error, sending nothing upstream and changing nothing
locally. -/
theorem push_precondition_noop (writeResult : Except String String) (now : Nat)
    (rec : LocalRecord)
    (h1 : rec.syncState ≠ "pending_push") (h2 : rec.syncState ≠ "local_only") :
    pushRecord writeResult now rec = (PushOutcome.precondError, rec, []) := by
  have hno : ¬(rec.syncState = "pending_push" ∨ rec.syncState = "local_only") := by
    rintro (h | h)
    · exact h1 h
    · exact h2 h
  unfold pushRecord
  rw [if_neg hno]

/-- Witness for C6: pushing a `remote_synced` record is rejected unchanged
with nothing sent. -/
theorem push_precondition_noop_witness :
    syncedRec.syncState ≠ "pending_push" ∧ syncedRec.syncState ≠ "local_only" ∧
    pushRecord (Except.ok ("R1")) 5 syncedRec = (PushOutcome.precondError, syncedRec, []) := by
  refine ⟨by decide, by decide, ?_⟩
  exact push_precondition_noop (Except.ok ("R1")) 5 syncedRec (by decide) (by decide)

/-! ## C7: push failure preserves local data -/

/-- C7: a push attempt that fails at the remote write leaves every local
field value (and the dirty set, identity and creation time) unchanged, moves
the record to `push_error`, and populates `error_detail` with the non-empty
failure cause. -/
theorem push_failure_preserves_fields (now : Nat) (rec : LocalRecord) (cause : String)
    (hstate : rec.syncState = "pending_push" ∨ rec.syncState = "local_only")
    (hcause : cause ≠ "") :
    (pushRecord (.error cause) now rec).1 = PushOutcome.pushFailed ∧
    (pushRecord (.error cause) now rec).2.1.fields = rec.fields ∧
    (pushRecord (.error cause) now rec).2.1.dirty = rec.dirty ∧
    (pushRecord (.error cause) now rec).2.1.externalId = rec.externalId ∧
    (pushRecord (.error cause) now rec).2.1.createdAt = rec.createdAt ∧
    (pushRecord (.error cause) now rec).2.1.syncState = "push_error" ∧
    (∃ m, (pushRecord (.error cause) now rec).2.1.errorDetail = some m ∧ m ≠ "") := by
  unfold pushRecord
  rw [if_pos hstate]
  exact ⟨rfl, rfl, rfl, rfl, rfl, rfl, cause, rfl, hcause⟩

/-- Witness for C7: a concrete failed push of a `pending_push` record. -/
theorem push_failure_preserves_fields_witness :
    (pendingRec.syncState = "pending_push" ∨ pendingRec.syncState = "local_only") ∧
    ("network unreachable" : String) ≠ "" ∧
    (pushRecord (.error ("network unreachable")) 5 pendingRec).2.1.fields =
      pendingRec.fields ∧
    (pushRecord (.error ("network unreachable")) 5 pendingRec).2.1.syncState =
      "push_error" := by
  have h := push_failure_preserves_fields 5 pendingRec "network unreachable"
    (Or.inl (by decide)) (by decide)
  exact ⟨Or.inl (by decide), by decide, h.2.1, h.2.2.2.2.2.1⟩

end SpondSync

namespace SpondFrontend

/-! ## C9: badge fallback for unknown status -/

/-- C9: for every sync status outside the four configured tokens, including
an absent status, the badge's config lookup falls back to the `synced`
entry, rendering a green badge labelled Synced; the event detail page
likewise substitutes `synced` for a missing sync_status. -/
theorem badge_unknown_status_fallback (st : Option String)
    (h : ∀ v, st = some v →
      v ≠ "synced" ∧ v ≠ "pending" ∧ v ≠ "local_only" ∧ v ≠ "error") :
    badgeConfig st = syncedConfig ∧
    (badgeConfig st).color = "green" ∧
    (badgeConfig st).label = "Synced" ∧
    detailPageBadgeStatus none = "synced" := by
  cases st with
  | none => exact ⟨rfl, rfl, rfl, rfl⟩
  | some v =>
    obtain ⟨h1, h2, h3, h4⟩ := h v rfl
    by_cases hv : v = ""
    · subst hv
      exact ⟨rfl, rfl, rfl, rfl⟩
    · have hlook : lookupConfig v = none := by
        unfold lookupConfig statusConfigList
        simp only [List.find?]
        rw [show (("synced" : String) == v) = false from beq_eq_false_iff_ne.mpr (Ne.symm h1),
            show (("pending" : String) == v) = false from beq_eq_false_iff_ne.mpr (Ne.symm h2),
            show (("local_only" : String) == v) = false from beq_eq_false_iff_ne.mpr (Ne.symm h3),
            show (("error" : String) == v) = false from beq_eq_false_iff_ne.mpr (Ne.symm h4)]
        rfl
      have hcfg : badgeConfig (some v) = syncedConfig := by
        unfold badgeConfig
        simp [hv, hlook]
      exact ⟨hcfg, by rw [hcfg]; rfl, by rw [hcfg]; rfl, rfl⟩

/-- Witness for C9: an out-of-set status token renders as the green Synced
badge. -/
theorem badge_unknown_status_fallback_witness :
    (∀ v, (some ("bogus") : Option String) = some v →
      v ≠ "synced" ∧ v ≠ "pending" ∧ v ≠ "local_only" ∧ v ≠ "error") ∧
    badgeConfig (some ("bogus")) = syncedConfig ∧
    (badgeConfig (some ("bogus"))).color = "green" := by
  have hh : ∀ v, (some ("bogus") : Option String) = some v →
      v ≠ "synced" ∧ v ≠ "pending" ∧ v ≠ "local_only" ∧ v ≠ "error" := by
    intro v hv
    injection hv with hv
    subst hv
    decide
  have h := badge_unknown_status_fallback (some ("bogus")) hh
  exact ⟨hh, h.1, h.2.1⟩

/-! ## C10: sync requires a selected group -/

/-- C10: `handleSync` with no selected group (absent or empty id) performs no
API call, shows the error toast, and never sets the syncing flag; and any
invocation that does issue a call had a non-empty group id and posted to
`/events/sync` with that id. -/
theorem handleSync_requires_group :
    (∀ gid ok, (gid = none ∨ gid = some "") → handleSync gid ok = noGroupEffects) ∧
    noGroupEffects.calls = [] ∧
    noGroupEffects.syncingSet = false ∧
    noGroupEffects.toasts =
      [{ title := "Error", description := "Please select a group first", color := "red" }] ∧
    (∀ gid ok, (handleSync gid ok).calls ≠ [] →
      ∃ g, gid = some g ∧ g ≠ "" ∧
        ({ path := "/events/sync", method := "POST",
           params := [("group_id", g), ("include_hidden", "true")] } : ApiCall) ∈
          (handleSync gid ok).calls) := by
  refine ⟨?_, rfl, rfl, rfl, ?_⟩
  · rintro gid ok (rfl | rfl)
    · rfl
    · rfl
  · intro gid ok hcalls
    cases gid with
    | none => exact absurd rfl hcalls
    | some g =>
      by_cases hg : g = ""
      · subst hg
        exact absurd rfl hcalls
      · refine ⟨g, rfl, hg, ?_⟩
        simp [handleSync, hg]

/-- Witness for C10: a missing group id yields the no-op effects, and a
concrete successful sync call carries its group id. -/
theorem handleSync_requires_group_witness :
    handleSync none true = noGroupEffects ∧
    (handleSync (some ("G1")) true).calls ≠ [] ∧
    (∃ g, (some ("G1") : Option String) = some g ∧ g ≠ "" ∧
      ({ path := "/events/sync", method := "POST",
         params := [("group_id", g), ("include_hidden", "true")] } : ApiCall) ∈
        (handleSync (some ("G1")) true).calls) := by
  refine ⟨handleSync_requires_group.1 none true (Or.inl rfl), by decide, ?_⟩
  exact handleSync_requires_group.2.2.2.2 (some ("G1")) true (by decide)

end SpondFrontend

namespace SpondSync

/-! ## Store and pass helper lemmas -/

theorem lookupRec_nil (id : String) : lookupRec ([] : Store) id = none := rfl

theorem lookupRec_cons (a : LocalRecord) (as : Store) (id : String) :
    lookupRec (a :: as) id = if a.externalId = id then some a else lookupRec as id := rfl

theorem updateRec_cons (a : LocalRecord) (as : Store) (id : String) (r' : LocalRecord) :
    updateRec (a :: as) id r' =
      if a.externalId = id then r' :: as else a :: updateRec as id r' := rfl

theorem lookupRec_eq_id {st : Store} {id : String} {r : LocalRecord}
    (h : lookupRec st id = some r) : r.externalId = id := by
  induction st with
  | nil => exact absurd h (by simp [lookupRec_nil])
  | cons a as ih =>
    rw [lookupRec_cons] at h
    by_cases ha : a.externalId = id
    · rw [if_pos ha] at h
      cases h
      exact ha
    · rw [if_neg ha] at h
      exact ih h

theorem lookupRec_mem {st : Store} {id : String} {r : LocalRecord}
    (h : lookupRec st id = some r) : r ∈ st := by
  induction st with
  | nil => exact absurd h (by simp [lookupRec_nil])
  | cons a as ih =>
    rw [lookupRec_cons] at h
    by_cases ha : a.externalId = id
    · rw [if_pos ha] at h
      cases h
      exact List.mem_cons_self _ _
    · rw [if_neg ha] at h
      exact List.mem_cons_of_mem a (ih h)

theorem mem_updateRec {st : Store} {id : String} {r r' : LocalRecord}
    (h : r ∈ updateRec st id r') : r ∈ st ∨ r = r' := by
  induction st with
  | nil => exact absurd h (by simp [updateRec])
  | cons a as ih =>
    rw [updateRec_cons] at h
    by_cases ha : a.externalId = id
    · rw [if_pos ha] at h
      rcases List.mem_cons.mp h with h | h
      · exact Or.inr h
      · exact Or.inl (List.mem_cons_of_mem a h)
    · rw [if_neg ha] at h
      rcases List.mem_cons.mp h with h | h
      · exact Or.inl (h ▸ List.mem_cons_self a as)
      · rcases ih h with h | h
        · exact Or.inl (List.mem_cons_of_mem a h)
        · exact Or.inr h

theorem lookupRec_updateRec_self {st : Store} {id : String} {l r' : LocalRecord}
    (h : lookupRec st id = some l) (hr' : r'.externalId = id) :
    lookupRec (updateRec st id r') id = some r' := by
  induction st with
  | nil => exact absurd h (by simp [lookupRec_nil])
  | cons a as ih =>
    rw [lookupRec_cons] at h
    rw [updateRec_cons]
    by_cases ha : a.externalId = id
    · rw [if_pos ha, lookupRec_cons, if_pos hr']
    · rw [if_neg ha] at h
      rw [if_neg ha, lookupRec_cons, if_neg ha]
      exact ih h

theorem lookupRec_updateRec_ne {st : Store} {id id' : String} {r' : LocalRecord}
    (hne : id ≠ id') (hr' : r'.externalId = id) :
    lookupRec (updateRec st id r') id' = lookupRec st id' := by
  induction st with
  | nil => rfl
  | cons a as ih =>
    rw [updateRec_cons]
    by_cases ha : a.externalId = id
    · rw [if_pos ha, lookupRec_cons, lookupRec_cons]
      have hr'ne : ¬r'.externalId = id' := by
        rw [hr']
        exact hne
      have hane : ¬a.externalId = id' := by
        rw [ha]
        exact hne
      rw [if_neg hr'ne, if_neg hane]
    · rw [if_neg ha, lookupRec_cons, lookupRec_cons]
      by_cases ha' : a.externalId = id'
      · rw [if_pos ha', if_pos ha']
      · rw [if_neg ha', if_neg ha']
        exact ih

theorem lookupRec_append (st st' : Store) (id : String) :
    lookupRec (st ++ st') id =
      match lookupRec st id with
      | some r => some r
      | none => lookupRec st' id := by
  induction st with
  | nil => rfl
  | cons a as ih =>
    rw [List.cons_append, lookupRec_cons, lookupRec_cons]
    by_cases ha : a.externalId = id
    · rw [if_pos ha, if_pos ha]
    · rw [if_neg ha, if_neg ha]
      exact ih

theorem lookupRec_append_left {st : Store} {id : String} {r : LocalRecord}
    (st' : Store) (h : lookupRec st id = some r) :
    lookupRec (st ++ st') id = some r := by
  rw [lookupRec_append, h]

theorem lookupRec_append_singleton_ne {st : Store} {id : String} {r' : LocalRecord}
    (hne : r'.externalId ≠ id) :
    lookupRec (st ++ [r']) id = lookupRec st id := by
  rw [lookupRec_append]
  cases h : lookupRec st id with
  | some r => rfl
  | none =>
    rw [lookupRec_cons, if_neg hne, lookupRec_nil]

theorem map_stripTime_updateRec {st : Store} {id : String} {l r' : LocalRecord}
    (h : lookupRec st id = some l) (hstrip : stripTime r' = stripTime l) :
    (updateRec st id r').map stripTime = st.map stripTime := by
  induction st with
  | nil => rfl
  | cons a as ih =>
    rw [lookupRec_cons] at h
    rw [updateRec_cons]
    by_cases ha : a.externalId = id
    · rw [if_pos ha] at h
      cases h
      rw [if_pos ha, List.map_cons, List.map_cons, hstrip]
    · rw [if_neg ha] at h
      rw [if_neg ha, List.map_cons, List.map_cons, ih h]

/-! Equation lemmas for the Reconciler's per-record step. -/

theorem processOne_err {p : RemotePayload} {e : String} (now : Nat) (acc : Store × SyncRun)
    (h : fromRemote p = .error e) :
    processOne now acc p =
      (acc.1, { acc.2 with errors := acc.2.errors + 1, notes := acc.2.notes ++ [.err e] }) := by
  unfold processOne
  rw [h]

theorem processOne_create {p : RemotePayload} {nf : NormalizedFields}
    (now : Nat) (acc : Store × SyncRun)
    (h : fromRemote p = .ok nf) (hl : lookupRec acc.1 nf.externalId = none) :
    processOne now acc p =
      (acc.1 ++ [freshRecord nf now], { acc.2 with created := acc.2.created + 1 }) := by
  unfold processOne
  rw [h]
  simp only [hl]

theorem processOne_update_pending {p : RemotePayload} {nf : NormalizedFields}
    {l : LocalRecord} (now : Nat) (acc : Store × SyncRun)
    (h : fromRemote p = .ok nf) (hl : lookupRec acc.1 nf.externalId = some l)
    (hp : l.syncState = "pending_push") :
    processOne now acc p =
      (updateRec acc.1 nf.externalId (pendingUpdate l nf now),
       { acc.2 with updated := acc.2.updated + 1,
                    notes := if nf.fields = l.fields then acc.2.notes
                             else acc.2.notes ++ [.warn (conflictMsg nf.externalId)] }) := by
  unfold processOne
  rw [h]
  simp only [hl]
  rw [if_pos hp]

theorem processOne_update_other {p : RemotePayload} {nf : NormalizedFields}
    {l : LocalRecord} (now : Nat) (acc : Store × SyncRun)
    (h : fromRemote p = .ok nf) (hl : lookupRec acc.1 nf.externalId = some l)
    (hp : l.syncState ≠ "pending_push") :
    processOne now acc p =
      (updateRec acc.1 nf.externalId (remoteWinsUpdate l nf now),
       { acc.2 with updated := acc.2.updated + 1 }) := by
  unfold processOne
  rw [h]
  simp only [hl]
  rw [if_neg hp]

theorem processAll_nil (now : Nat) (acc : Store × SyncRun) :
    processAll now [] acc = acc := rfl

theorem processAll_cons (now : Nat) (p : RemotePayload) (ps : List RemotePayload)
    (acc : Store × SyncRun) :
    processAll now (p :: ps) acc = processAll now ps (processOne now acc p) := rfl

theorem mappedList_nil : mappedList [] = [] := rfl

theorem mappedList_cons_ok {p : RemotePayload} {nf : NormalizedFields}
    (ps : List RemotePayload) (h : fromRemote p = .ok nf) :
    mappedList (p :: ps) = nf :: mappedList ps := by
  unfold mappedList
  rw [List.filterMap_cons, h]
  rfl

theorem mappedList_cons_err {p : RemotePayload} {e : String}
    (ps : List RemotePayload) (h : fromRemote p = .error e) :
    mappedList (p :: ps) = mappedList ps := by
  unfold mappedList
  rw [List.filterMap_cons, h]
  rfl

theorem processOne_lookup_frame {p : RemotePayload} {id : String}
    (now : Nat) (acc : Store × SyncRun)
    (hid : ∀ nf, fromRemote p = .ok nf → nf.externalId ≠ id) :
    lookupRec (processOne now acc p).1 id = lookupRec acc.1 id := by
  cases hfr : fromRemote p with
  | error e => rw [processOne_err now acc hfr]
  | ok nf =>
    have hne : nf.externalId ≠ id := hid nf hfr
    cases hl : lookupRec acc.1 nf.externalId with
    | none =>
      rw [processOne_create now acc hfr hl]
      exact lookupRec_append_singleton_ne hne
    | some l =>
      have hlid : l.externalId = nf.externalId := lookupRec_eq_id hl
      by_cases hp : l.syncState = "pending_push"
      · rw [processOne_update_pending now acc hfr hl hp]
        have hpid : (pendingUpdate l nf now).externalId = nf.externalId := hlid
        exact lookupRec_updateRec_ne hne hpid
      · rw [processOne_update_other now acc hfr hl hp]
        have hpid : (remoteWinsUpdate l nf now).externalId = nf.externalId := hlid
        exact lookupRec_updateRec_ne hne hpid

theorem processAll_lookup_frame {ps : List RemotePayload} {id : String}
    (now : Nat) (acc : Store × SyncRun)
    (hid : ∀ nf ∈ mappedList ps, nf.externalId ≠ id) :
    lookupRec (processAll now ps acc).1 id = lookupRec acc.1 id := by
  induction ps generalizing acc with
  | nil => rfl
  | cons p ps ih =>
    rw [processAll_cons]
    have hhead : ∀ nf, fromRemote p = .ok nf → nf.externalId ≠ id := by
      intro nf h
      exact hid nf (by rw [mappedList_cons_ok ps h]; exact List.mem_cons_self _ _)
    have htail : ∀ nf ∈ mappedList ps, nf.externalId ≠ id := by
      intro nf hmem
      cases hfr : fromRemote p with
      | error e => exact hid nf (by rw [mappedList_cons_err ps hfr]; exact hmem)
      | ok nf0 =>
        exact hid nf (by rw [mappedList_cons_ok ps hfr]; exact List.mem_cons_of_mem nf0 hmem)
    rw [ih _ htail, processOne_lookup_frame now acc hhead]

theorem processOne_isSome {p : RemotePayload} {id : String}
    (now : Nat) (acc : Store × SyncRun)
    (h : (lookupRec acc.1 id).isSome) :
    (lookupRec (processOne now acc p).1 id).isSome := by
  cases hfr : fromRemote p with
  | error e => rw [processOne_err now acc hfr]; exact h
  | ok nf =>
    cases hl : lookupRec acc.1 nf.externalId with
    | none =>
      rw [processOne_create now acc hfr hl]
      obtain ⟨r, hr⟩ := Option.isSome_iff_exists.mp h
      rw [lookupRec_append_left _ hr]
      rfl
    | some l =>
      have hlid : l.externalId = nf.externalId := lookupRec_eq_id hl
      by_cases hide : nf.externalId = id
      · subst hide
        by_cases hp : l.syncState = "pending_push"
        · have hpid : (pendingUpdate l nf now).externalId = nf.externalId := hlid
          rw [processOne_update_pending now acc hfr hl hp,
              lookupRec_updateRec_self hl hpid]
          rfl
        · have hpid : (remoteWinsUpdate l nf now).externalId = nf.externalId := hlid
          rw [processOne_update_other now acc hfr hl hp,
              lookupRec_updateRec_self hl hpid]
          rfl
      · by_cases hp : l.syncState = "pending_push"
        · have hpid : (pendingUpdate l nf now).externalId = nf.externalId := hlid
          rw [processOne_update_pending now acc hfr hl hp,
              lookupRec_updateRec_ne hide hpid]
          exact h
        · have hpid : (remoteWinsUpdate l nf now).externalId = nf.externalId := hlid
          rw [processOne_update_other now acc hfr hl hp,
              lookupRec_updateRec_ne hide hpid]
          exact h

theorem processAll_isSome {ps : List RemotePayload} {id : String}
    (now : Nat) (acc : Store × SyncRun)
    (h : (lookupRec acc.1 id).isSome) :
    (lookupRec (processAll now ps acc).1 id).isSome := by
  induction ps generalizing acc with
  | nil => exact h
  | cons p ps ih =>
    rw [processAll_cons]
    exact ih _ (processOne_isSome now acc h)

theorem processOne_notes_mem {p : RemotePayload} {n : RunNote}
    (now : Nat) (acc : Store × SyncRun)
    (h : n ∈ acc.2.notes) :
    n ∈ (processOne now acc p).2.notes := by
  cases hfr : fromRemote p with
  | error e =>
    rw [processOne_err now acc hfr]
    exact List.mem_append_left _ h
  | ok nf =>
    cases hl : lookupRec acc.1 nf.externalId with
    | none =>
      rw [processOne_create now acc hfr hl]
      exact h
    | some l =>
      by_cases hp : l.syncState = "pending_push"
      · rw [processOne_update_pending now acc hfr hl hp]
        by_cases hf : nf.fields = l.fields
        · simp only [if_pos hf]
          exact h
        · simp only [if_neg hf]
          exact List.mem_append_left _ h
      · rw [processOne_update_other now acc hfr hl hp]
        exact h

theorem processAll_notes_mem {ps : List RemotePayload} {n : RunNote}
    (now : Nat) (acc : Store × SyncRun)
    (h : n ∈ acc.2.notes) :
    n ∈ (processAll now ps acc).2.notes := by
  induction ps generalizing acc with
  | nil => exact h
  | cons p ps ih =>
    rw [processAll_cons]
    exact ih _ (processOne_notes_mem now acc h)

theorem processOne_storeValid {p : RemotePayload}
    (now : Nat) (acc : Store × SyncRun)
    (h : storeValid acc.1) :
    storeValid (processOne now acc p).1 := by
  cases hfr : fromRemote p with
  | error e =>
    rw [processOne_err now acc hfr]
    exact h
  | ok nf =>
    cases hl : lookupRec acc.1 nf.externalId with
    | none =>
      rw [processOne_create now acc hfr hl]
      intro r hr
      rcases List.mem_append.mp hr with hr | hr
      · exact h r hr
      · rw [List.mem_singleton.mp hr]
        exact Or.inl rfl
    | some l =>
      by_cases hp : l.syncState = "pending_push"
      · rw [processOne_update_pending now acc hfr hl hp]
        intro r hr
        rcases mem_updateRec hr with hr | hr
        · exact h r hr
        · rw [hr]
          exact Or.inr (Or.inl hp)
      · rw [processOne_update_other now acc hfr hl hp]
        intro r hr
        rcases mem_updateRec hr with hr | hr
        · exact h r hr
        · rw [hr]
          exact Or.inl rfl

theorem processAll_storeValid {ps : List RemotePayload}
    (now : Nat) (acc : Store × SyncRun)
    (h : storeValid acc.1) :
    storeValid (processAll now ps acc).1 := by
  induction ps generalizing acc with
  | nil => exact h
  | cons p ps ih =>
    rw [processAll_cons]
    exact ih _ (processOne_storeValid now acc h)

/-! ## C8: the sync-state enum is closed -/

/-- C8: every record's sync_state is one of the four legal values
remote_synced, pending_push, local_only, push_error, and each operation —
pull pass, local edit, push attempt, and both creation paths — preserves
membership in that set. -/
theorem sync_state_closed :
    (∀ (st : Store) (k : Kind) (remote : List RemotePayload) (t : Nat),
      storeValid st → storeValid (pullPass k remote t st).1) ∧
    (∀ (rec : LocalRecord) (nf : Fields) (keys : List FieldKey),
      validState rec.syncState → validState (localEdit nf keys rec).syncState) ∧
    (∀ (rec : LocalRecord) (w : Except String String) (t : Nat),
      validState rec.syncState → validState (pushRecord w t rec).2.1.syncState) ∧
    (∀ (id : String) (f : Fields) (t : Nat), validState (createLocal id f t).syncState) := by
  refine ⟨?_, ?_, ?_, ?_⟩
  · intro st k remote t h
    exact processAll_storeValid t _ h
  · intro rec nf keys h
    by_cases hs : rec.syncState = "remote_synced" ∨ rec.syncState = "push_error"
    · simp [localEdit, validState, hs]
    · show validState
        (if rec.syncState = "remote_synced" ∨ rec.syncState = "push_error" then
          "pending_push" else rec.syncState)
      rw [if_neg hs]
      exact h
  · intro rec w t h
    by_cases hs : rec.syncState = "pending_push" ∨ rec.syncState = "local_only"
    · cases w with
      | ok eid => simp [pushRecord, validState, hs]
      | error c => simp [pushRecord, validState, hs]
    · unfold pushRecord
      rw [if_neg hs]
      exact h
  · intro id f t
    exact Or.inr (Or.inr (Or.inl rfl))

/-- Witness for C8 at concrete inputs: a valid store stays valid through a
pull pass, and each other operation lands in the legal state set. -/
theorem sync_state_closed_witness :
    storeValid [syncedRec] ∧
    storeValid (pullPass Kind.event [ev1] 5 [syncedRec]).1 ∧
    validState (localEdit sampleFields [FieldKey.heading] syncedRec).syncState ∧
    validState (pushRecord (.error ("boom")) 3 pendingRec).2.1.syncState ∧
    validState (createLocal ("L1") sampleFields 2).syncState := by
  have hv : storeValid [syncedRec] := by decide
  exact ⟨hv,
    sync_state_closed.1 [syncedRec] Kind.event [ev1] 5 hv,
    sync_state_closed.2.1 syncedRec sampleFields [FieldKey.heading] (by decide),
    sync_state_closed.2.2.1 pendingRec (.error ("boom")) 3 (by decide),
    sync_state_closed.2.2.2 ("L1") sampleFields 2⟩

/-! ## Idempotence machinery -/

theorem mappedIds_cons_ok {p : RemotePayload} {nf : NormalizedFields}
    (ps : List RemotePayload) (h : fromRemote p = .ok nf) :
    mappedIds (p :: ps) = nf.externalId :: mappedIds ps := by
  unfold mappedIds
  rw [mappedList_cons_ok ps h]
  rfl

theorem mappedIds_cons_err {p : RemotePayload} {e : String}
    (ps : List RemotePayload) (h : fromRemote p = .error e) :
    mappedIds (p :: ps) = mappedIds ps := by
  unfold mappedIds
  rw [mappedList_cons_err ps h]

theorem mem_mappedIds {ps : List RemotePayload} {nf : NormalizedFields}
    (h : nf ∈ mappedList ps) : nf.externalId ∈ mappedIds ps :=
  List.mem_map_of_mem (fun x => x.externalId) h

theorem mergeFields_idem (d : List FieldKey) (lf rf : Fields) :
    mergeFields d (mergeFields d lf rf) rf = mergeFields d lf rf := by
  by_cases h1 : FieldKey.heading ∈ d <;>
    by_cases h2 : FieldKey.description ∈ d <;>
      by_cases h3 : FieldKey.startTime ∈ d <;>
        by_cases h4 : FieldKey.endTime ∈ d <;>
          simp [mergeFields, h1, h2, h3, h4]

theorem processAll_counters (now : Nat) (ps : List RemotePayload) :
    ∀ acc : Store × SyncRun,
      (∀ nf ∈ mappedList ps, (lookupRec acc.1 nf.externalId).isSome) →
      (processAll now ps acc).2.created = acc.2.created ∧
      (processAll now ps acc).2.updated = acc.2.updated + (mappedList ps).length := by
  induction ps with
  | nil =>
    intro acc _
    exact ⟨rfl, by rw [mappedList_nil]; rfl⟩
  | cons p ps ih =>
    intro acc hpres
    rw [processAll_cons]
    cases hfr : fromRemote p with
    | error e =>
      have hmp := mappedList_cons_err ps hfr
      have hstep := processOne_err now acc hfr
      have hpres' : ∀ nf ∈ mappedList ps,
          (lookupRec (processOne now acc p).1 nf.externalId).isSome := by
        intro nf hmem
        exact processOne_isSome now acc (hpres nf (by rw [hmp]; exact hmem))
      obtain ⟨hc, hu⟩ := ih (processOne now acc p) hpres'
      constructor
      · rw [hc, hstep]
      · rw [hu, hstep, hmp]
    | ok nf =>
      have hmp := mappedList_cons_ok ps hfr
      have hpres' : ∀ nf0 ∈ mappedList ps,
          (lookupRec (processOne now acc p).1 nf0.externalId).isSome := by
        intro nf0 hmem
        exact processOne_isSome now acc
          (hpres nf0 (by rw [hmp]; exact List.mem_cons_of_mem nf hmem))
      obtain ⟨hc, hu⟩ := ih (processOne now acc p) hpres'
      have hhead : (lookupRec acc.1 nf.externalId).isSome :=
        hpres nf (by rw [hmp]; exact List.mem_cons_self _ _)
      obtain ⟨l, hl⟩ := Option.isSome_iff_exists.mp hhead
      by_cases hp : l.syncState = "pending_push"
      · have hstep := processOne_update_pending now acc hfr hl hp
        constructor
        · rw [hc, hstep]
        · rw [hu, hstep, hmp, List.length_cons]
          show acc.2.updated + 1 + (mappedList ps).length =
            acc.2.updated + ((mappedList ps).length + 1)
          omega
      · have hstep := processOne_update_other now acc hfr hl hp
        constructor
        · rw [hc, hstep]
        · rw [hu, hstep, hmp, List.length_cons]
          show acc.2.updated + 1 + (mappedList ps).length =
            acc.2.updated + ((mappedList ps).length + 1)
          omega

theorem remoteWinsUpdate_of_stable {rec : LocalRecord} {nf : NormalizedFields} {now : Nat}
    (hsync : rec.syncState = "remote_synced") (hdirty : rec.dirty = [])
    (hfields : rec.fields = nf.fields) :
    remoteWinsUpdate rec nf now = { rec with updatedAt := now } := by
  unfold remoteWinsUpdate
  rw [← hfields, ← hsync, ← hdirty]

theorem pendingUpdate_of_stable {rec : LocalRecord} {nf : NormalizedFields} {now : Nat}
    (hmerge : mergeFields rec.dirty rec.fields nf.fields = rec.fields) :
    pendingUpdate rec nf now = { rec with updatedAt := now } := by
  unfold pendingUpdate
  rw [hmerge]

theorem processAll_stable_strip (now : Nat) (ps : List RemotePayload) :
    ∀ acc : Store × SyncRun,
      (mappedIds ps).Nodup →
      (∀ nf ∈ mappedList ps,
        ∃ rec, lookupRec acc.1 nf.externalId = some rec ∧ stableFor nf rec) →
      (processAll now ps acc).1.map stripTime = acc.1.map stripTime := by
  induction ps with
  | nil =>
    intro acc _ _
    rfl
  | cons p ps ih =>
    intro acc hnd hstable
    rw [processAll_cons]
    cases hfr : fromRemote p with
    | error e =>
      have hstep := processOne_err now acc hfr
      have hstable' : ∀ nf ∈ mappedList ps,
          ∃ rec, lookupRec (processOne now acc p).1 nf.externalId = some rec ∧
            stableFor nf rec := by
        intro nf hmem
        rw [hstep]
        exact hstable nf (by rw [mappedList_cons_err ps hfr]; exact hmem)
      rw [ih (processOne now acc p) (by rw [← mappedIds_cons_err ps hfr]; exact hnd) hstable',
          hstep]
    | ok nf =>
      rw [mappedIds_cons_ok ps hfr] at hnd
      have hnotin : nf.externalId ∉ mappedIds ps := (List.nodup_cons.mp hnd).1
      have hndtail : (mappedIds ps).Nodup := (List.nodup_cons.mp hnd).2
      obtain ⟨rec, hl, hst⟩ :=
        hstable nf (by rw [mappedList_cons_ok ps hfr]; exact List.mem_cons_self _ _)
      have hlid : rec.externalId = nf.externalId := lookupRec_eq_id hl
      have hframe : ∀ nf' ∈ mappedList ps,
          lookupRec (processOne now acc p).1 nf'.externalId =
            lookupRec acc.1 nf'.externalId := by
        intro nf' hmem
        apply processOne_lookup_frame now acc
        intro nf'' h''
        rw [hfr] at h''
        cases h''
        intro heq
        exact hnotin (heq ▸ mem_mappedIds hmem)
      have hstable' : ∀ nf' ∈ mappedList ps,
          ∃ rec', lookupRec (processOne now acc p).1 nf'.externalId = some rec' ∧
            stableFor nf' rec' := by
        intro nf' hmem
        rw [hframe nf' hmem]
        exact hstable nf' (by rw [mappedList_cons_ok ps hfr]; exact List.mem_cons_of_mem nf hmem)
      rw [ih (processOne now acc p) hndtail hstable']
      rcases hst with ⟨hpend, hmerge⟩ | ⟨hsync, hdirty, hfields⟩
      · have hstep := processOne_update_pending now acc hfr hl hpend
        rw [hstep]
        show (updateRec acc.1 nf.externalId (pendingUpdate rec nf now)).map stripTime =
          acc.1.map stripTime
        apply map_stripTime_updateRec hl
        rw [pendingUpdate_of_stable hmerge]
        rfl
      · have hpnot : rec.syncState ≠ "pending_push" := by
          rw [hsync]
          decide
        have hstep := processOne_update_other now acc hfr hl hpnot
        rw [hstep]
        show (updateRec acc.1 nf.externalId (remoteWinsUpdate rec nf now)).map stripTime =
          acc.1.map stripTime
        apply map_stripTime_updateRec hl
        rw [remoteWinsUpdate_of_stable hsync hdirty hfields]
        rfl

theorem processAll_establishes_stable (now : Nat) (ps : List RemotePayload) :
    ∀ acc : Store × SyncRun,
      (mappedIds ps).Nodup →
      ∀ nf ∈ mappedList ps,
        ∃ rec, lookupRec (processAll now ps acc).1 nf.externalId = some rec ∧
          stableFor nf rec := by
  induction ps with
  | nil =>
    intro acc _ nf hmem
    exact absurd hmem (by rw [mappedList_nil]; exact List.not_mem_nil nf)
  | cons p ps ih =>
    intro acc hnd nf hmem
    rw [processAll_cons]
    cases hfr : fromRemote p with
    | error e =>
      rw [mappedList_cons_err ps hfr] at hmem
      rw [mappedIds_cons_err ps hfr] at hnd
      exact ih (processOne now acc p) hnd nf hmem
    | ok nf0 =>
      rw [mappedList_cons_ok ps hfr] at hmem
      rw [mappedIds_cons_ok ps hfr] at hnd
      have hnotin : nf0.externalId ∉ mappedIds ps := (List.nodup_cons.mp hnd).1
      have hndtail : (mappedIds ps).Nodup := (List.nodup_cons.mp hnd).2
      rcases List.mem_cons.mp hmem with rfl | hmem'
      · have hhead : ∃ rec, lookupRec (processOne now acc p).1 nf.externalId = some rec ∧
            stableFor nf rec := by
          cases hl : lookupRec acc.1 nf.externalId with
          | none =>
            refine ⟨freshRecord nf now, ?_, Or.inr ⟨rfl, rfl, rfl⟩⟩
            rw [processOne_create now acc hfr hl, lookupRec_append, hl, lookupRec_cons,
                if_pos (show (freshRecord nf now).externalId = nf.externalId from rfl)]
          | some l =>
            have hlid : l.externalId = nf.externalId := lookupRec_eq_id hl
            by_cases hp : l.syncState = "pending_push"
            · refine ⟨pendingUpdate l nf now, ?_, ?_⟩
              · have hpid : (pendingUpdate l nf now).externalId = nf.externalId := hlid
                rw [processOne_update_pending now acc hfr hl hp]
                exact lookupRec_updateRec_self hl hpid
              · exact Or.inl ⟨hp, mergeFields_idem l.dirty l.fields nf.fields⟩
            · refine ⟨remoteWinsUpdate l nf now, ?_, Or.inr ⟨rfl, rfl, rfl⟩⟩
              have hpid : (remoteWinsUpdate l nf now).externalId = nf.externalId := hlid
              rw [processOne_update_other now acc hfr hl hp]
              exact lookupRec_updateRec_self hl hpid
        obtain ⟨rec0, hlook0, hst0⟩ := hhead
        refine ⟨rec0, ?_, hst0⟩
        rw [processAll_lookup_frame now (processOne now acc p) ?_]
        · exact hlook0
        · intro nf' hmem' heq
          exact hnotin (heq ▸ mem_mappedIds hmem')
      · exact ih (processOne now acc p) hndtail nf hmem'

/-! ## C4: pull-pass idempotence -/

/-- C4: running a pull pass twice in a row with no remote-side changes is
idempotent — the second run creates nothing, its updated count equals the
number of records it touched (the successfully mapped remote records), and
every entity is identical after the second run except that `updated_at`
advances. -/
theorem pull_pass_idempotent (k : Kind) (remote : List RemotePayload) (t1 t2 : Nat)
    (s0 : Store) (hnd : (mappedIds remote).Nodup) :
    (pullPass k remote t2 (pullPass k remote t1 s0).1).2.created = 0 ∧
    (pullPass k remote t2 (pullPass k remote t1 s0).1).2.updated =
      (mappedList remote).length ∧
    (pullPass k remote t2 (pullPass k remote t1 s0).1).1.map stripTime =
      (pullPass k remote t1 s0).1.map stripTime := by
  have hstable : ∀ nf ∈ mappedList remote,
      ∃ rec, lookupRec (pullPass k remote t1 s0).1 nf.externalId = some rec ∧
        stableFor nf rec := by
    intro nf hmem
    exact processAll_establishes_stable t1 remote _ hnd nf hmem
  have hpres : ∀ nf ∈ mappedList remote,
      (lookupRec (pullPass k remote t1 s0).1 nf.externalId).isSome := by
    intro nf hmem
    obtain ⟨rec, hl, _⟩ := hstable nf hmem
    rw [hl]
    rfl
  have hcount := processAll_counters t2 remote
    ((pullPass k remote t1 s0).1,
     { kind := k, startedAt := t2, finishedAt := t2,
       fetched := remote.length, created := 0, updated := 0, errors := 0, notes := [] })
    hpres
  have hstrip := processAll_stable_strip t2 remote
    ((pullPass k remote t1 s0).1,
     { kind := k, startedAt := t2, finishedAt := t2,
       fetched := remote.length, created := 0, updated := 0, errors := 0, notes := [] })
    hnd hstable
  refine ⟨hcount.1, ?_, hstrip⟩
  have h2 : (pullPass k remote t2 (pullPass k remote t1 s0).1).2.updated =
      0 + (mappedList remote).length := hcount.2
  rw [Nat.zero_add] at h2
  exact h2

/-- Witness for C4 at a concrete two-record page over an initially empty
store. -/
theorem pull_pass_idempotent_witness :
    (mappedIds [ev1, ev3]).Nodup ∧
    (pullPass Kind.event [ev1, ev3] 9 (pullPass Kind.event [ev1, ev3] 8 []).1).2.created = 0 ∧
    (pullPass Kind.event [ev1, ev3] 9 (pullPass Kind.event [ev1, ev3] 8 []).1).2.updated =
      (mappedList [ev1, ev3]).length ∧
    (pullPass Kind.event [ev1, ev3] 9 (pullPass Kind.event [ev1, ev3] 8 []).1).1.map stripTime =
      (pullPass Kind.event [ev1, ev3] 8 []).1.map stripTime := by
  have hnd : (mappedIds [ev1, ev3]).Nodup := by decide
  have h := pull_pass_idempotent Kind.event [ev1, ev3] 8 9 [] hnd
  exact ⟨hnd, h.1, h.2.1, h.2.2⟩

/-! ## C5: no lost local edit -/

theorem getField_mergeFields (key : FieldKey) (d : List FieldKey) (lf rf : Fields) :
    getField key (mergeFields d lf rf) =
      if key ∈ d then getField key lf else getField key rf := by
  cases key with
  | heading =>
    by_cases h : FieldKey.heading ∈ d
    · rw [if_pos h]
      show Sum.inl (if FieldKey.heading ∈ d then lf.heading else rf.heading) =
        Sum.inl lf.heading
      rw [if_pos h]
    · rw [if_neg h]
      show Sum.inl (if FieldKey.heading ∈ d then lf.heading else rf.heading) =
        Sum.inl rf.heading
      rw [if_neg h]
  | description =>
    by_cases h : FieldKey.description ∈ d
    · rw [if_pos h]
      show Sum.inl (if FieldKey.description ∈ d then lf.description else rf.description) =
        Sum.inl lf.description
      rw [if_pos h]
    · rw [if_neg h]
      show Sum.inl (if FieldKey.description ∈ d then lf.description else rf.description) =
        Sum.inl rf.description
      rw [if_neg h]
  | startTime =>
    by_cases h : FieldKey.startTime ∈ d
    · rw [if_pos h]
      show Sum.inr (if FieldKey.startTime ∈ d then lf.startTime else rf.startTime) =
        Sum.inr lf.startTime
      rw [if_pos h]
    · rw [if_neg h]
      show Sum.inr (if FieldKey.startTime ∈ d then lf.startTime else rf.startTime) =
        Sum.inr rf.startTime
      rw [if_neg h]
  | endTime =>
    by_cases h : FieldKey.endTime ∈ d
    · rw [if_pos h]
      show Sum.inr (if FieldKey.endTime ∈ d then lf.endTime else rf.endTime) =
        Sum.inr lf.endTime
      rw [if_pos h]
    · rw [if_neg h]
      show Sum.inr (if FieldKey.endTime ∈ d then lf.endTime else rf.endTime) =
        Sum.inr rf.endTime
      rw [if_neg h]

theorem processAll_append (now : Nat) (xs ys : List RemotePayload)
    (acc : Store × SyncRun) :
    processAll now (xs ++ ys) acc = processAll now ys (processAll now xs acc) := by
  induction xs generalizing acc with
  | nil => rfl
  | cons x xs ih => rw [List.cons_append, processAll_cons, processAll_cons, ih]

/-- C5: a record in `pending_push` that a pull pass also sees changed
remotely keeps every uncommitted locally edited field value, receives the
remote value on every other field, remains in `pending_push`, and the
conflict is recorded in the run's message list as a non-fatal warning. -/
theorem pull_preserves_pending_edits (k : Kind) (pre post : List RemotePayload)
    (p : RemotePayload) (nf : NormalizedFields) (t : Nat) (s : Store) (l : LocalRecord)
    (hmap : fromRemote p = .ok nf)
    (hlook : lookupRec s nf.externalId = some l)
    (hpend : l.syncState = "pending_push")
    (hchange : nf.fields ≠ l.fields)
    (hpre : ∀ nf' ∈ mappedList pre, nf'.externalId ≠ nf.externalId)
    (hpost : ∀ nf' ∈ mappedList post, nf'.externalId ≠ nf.externalId) :
    ∃ l', lookupRec (pullPass k (pre ++ p :: post) t s).1 nf.externalId = some l' ∧
      l'.syncState = "pending_push" ∧
      l'.dirty = l.dirty ∧
      (∀ key ∈ l.dirty, getField key l'.fields = getField key l.fields) ∧
      (∀ key, key ∉ l.dirty → getField key l'.fields = getField key nf.fields) ∧
      RunNote.warn (conflictMsg nf.externalId) ∈
        (pullPass k (pre ++ p :: post) t s).2.notes := by
  have main : ∀ acc : Store × SyncRun, acc.1 = s →
      lookupRec (processAll t post (processOne t (processAll t pre acc) p)).1
          nf.externalId = some (pendingUpdate l nf t) ∧
      RunNote.warn (conflictMsg nf.externalId) ∈
        (processAll t post (processOne t (processAll t pre acc) p)).2.notes := by
    intro acc hacc
    have hApre : lookupRec (processAll t pre acc).1 nf.externalId = some l := by
      rw [processAll_lookup_frame t acc hpre, hacc]
      exact hlook
    have hstep := processOne_update_pending t (processAll t pre acc) hmap hApre hpend
    have hlid : l.externalId = nf.externalId := lookupRec_eq_id hApre
    have hpid : (pendingUpdate l nf t).externalId = nf.externalId := hlid
    constructor
    · rw [processAll_lookup_frame t _ hpost, hstep]
      exact lookupRec_updateRec_self hApre hpid
    · apply processAll_notes_mem
      rw [hstep]
      show RunNote.warn (conflictMsg nf.externalId) ∈
        (if nf.fields = l.fields then (processAll t pre acc).2.notes
         else (processAll t pre acc).2.notes ++ [RunNote.warn (conflictMsg nf.externalId)])
      rw [if_neg hchange]
      exact List.mem_append_right _ (List.mem_singleton.mpr rfl)
  obtain ⟨h1, h2⟩ := main
    (s, { kind := k, startedAt := t, finishedAt := t,
          fetched := (pre ++ p :: post).length, created := 0, updated := 0,
          errors := 0, notes := [] }) rfl
  have hsplit : pullPass k (pre ++ p :: post) t s =
      processAll t post (processOne t (processAll t pre
        (s, { kind := k, startedAt := t, finishedAt := t,
              fetched := (pre ++ p :: post).length, created := 0, updated := 0,
              errors := 0, notes := [] })) p) := by
    show processAll t (pre ++ p :: post) _ = _
    rw [processAll_append, processAll_cons]
  refine ⟨pendingUpdate l nf t, ?_, hpend, rfl, ?_, ?_, ?_⟩
  · rw [hsplit]
    exact h1
  · intro key hkey
    show getField key (mergeFields l.dirty l.fields nf.fields) = getField key l.fields
    rw [getField_mergeFields, if_pos hkey]
  · intro key hkey
    show getField key (mergeFields l.dirty l.fields nf.fields) = getField key nf.fields
    rw [getField_mergeFields, if_neg hkey]
  · rw [hsplit]
    exact h2

/-- The normalized form of `ev1`, used by the C5 witness. -/
def nfEv1 : NormalizedFields where
  externalId := "E1"
  fields :=
    { heading := "Practice", description := "weekly session",
      startTime := 100, endTime := 200 }

/-- Witness for C5: a single-record page updating the one pending record. -/
theorem pull_preserves_pending_edits_witness :
    fromRemote ev1 = .ok nfEv1 ∧
    lookupRec [pendingRec] nfEv1.externalId = some pendingRec ∧
    pendingRec.syncState = "pending_push" ∧
    nfEv1.fields ≠ pendingRec.fields ∧
    (∃ l', lookupRec (pullPass Kind.event ([] ++ ev1 :: []) 9 [pendingRec]).1
        nfEv1.externalId = some l' ∧
      l'.syncState = "pending_push" ∧
      l'.dirty = pendingRec.dirty ∧
      (∀ key ∈ pendingRec.dirty, getField key l'.fields = getField key pendingRec.fields) ∧
      (∀ key, key ∉ pendingRec.dirty → getField key l'.fields = getField key nfEv1.fields) ∧
      RunNote.warn (conflictMsg nfEv1.externalId) ∈
        (pullPass Kind.event ([] ++ ev1 :: []) 9 [pendingRec]).2.notes) := by
  have hempty : ∀ nf' ∈ mappedList [], nf'.externalId ≠ nfEv1.externalId := by
    intro nf' h
    exact absurd h (List.not_mem_nil nf')
  exact ⟨rfl, rfl, rfl, by decide,
    pull_preserves_pending_edits Kind.event [] [] ev1 nfEv1 9 [pendingRec] pendingRec
      rfl rfl rfl (by decide) hempty hempty⟩

/-! ## C2: ResponseSet partition and shape agreement -/

theorem answerCategory_cases (a : Option String) :
    answerCategory a = "accepted" ∨ answerCategory a = "declined" ∨
      answerCategory a = "unanswered" := by
  cases a with
  | none => exact Or.inr (Or.inr rfl)
  | some s =>
    have hred : answerCategory (some s) =
        (if s = "accepted" then "accepted"
         else if s = "declined" then "declined" else "unanswered") := rfl
    rw [hred]
    by_cases h1 : s = "accepted"
    · rw [if_pos h1]
      exact Or.inl rfl
    · rw [if_neg h1]
      by_cases h2 : s = "declined"
      · rw [if_pos h2]
        exact Or.inr (Or.inl rfl)
      · rw [if_neg h2]
        exact Or.inr (Or.inr rfl)

theorem mem_categoryBucket {raw : List RawAnswer} {c u : String} :
    u ∈ (raw.filter (fun r => answerCategory r.answer == c)).map (fun r => r.uid) ↔
      ∃ r, r ∈ raw ∧ answerCategory r.answer = c ∧ r.uid = u := by
  simp [List.mem_map, List.mem_filter, beq_iff_eq, and_assoc]

/-- C2: for every event with a non-empty invited population, in whichever of
the two upstream shapes it arrives, normalization yields three pairwise
disjoint categories whose union is the full invited population, and the two
shapes normalize to the same ResponseSet. -/
theorem responseSet_partition_agreement (raw : List RawAnswer) (f : FlatResponses)
    (hne : raw ≠ [])
    (hnd : (invitedOfNested raw).Nodup)
    (hacc : List.Perm f.acceptedUids (normalizeNested raw).accepted)
    (hdec : List.Perm f.declinedUids (normalizeNested raw).declined)
    (huna : List.Perm f.unansweredUids (normalizeNested raw).unanswered) :
    partitions (normalizeNested raw) (invitedOfNested raw) ∧
    sameResponseSet (normalizeFlat f) (normalizeNested raw) ∧
    invitedOfNested raw ≠ [] := by
  have hnd' : (raw.map (fun r => r.uid)).Nodup := hnd
  have uniq := List.inj_on_of_nodup_map hnd'
  have hmemA : ∀ u, u ∈ (normalizeNested raw).accepted ↔
      ∃ r, r ∈ raw ∧ answerCategory r.answer = "accepted" ∧ r.uid = u :=
    fun u => mem_categoryBucket
  have hmemD : ∀ u, u ∈ (normalizeNested raw).declined ↔
      ∃ r, r ∈ raw ∧ answerCategory r.answer = "declined" ∧ r.uid = u :=
    fun u => mem_categoryBucket
  have hmemU : ∀ u, u ∈ (normalizeNested raw).unanswered ↔
      ∃ r, r ∈ raw ∧ answerCategory r.answer = "unanswered" ∧ r.uid = u :=
    fun u => mem_categoryBucket
  have hdisj : ∀ (c1 c2 : String), c1 ≠ c2 → ∀ u,
      ¬((∃ r, r ∈ raw ∧ answerCategory r.answer = c1 ∧ r.uid = u) ∧
        (∃ r, r ∈ raw ∧ answerCategory r.answer = c2 ∧ r.uid = u)) := by
    rintro c1 c2 hc u ⟨⟨r1, hr1, hcat1, huid1⟩, ⟨r2, hr2, hcat2, huid2⟩⟩
    have : r1 = r2 := uniq hr1 hr2 (by rw [huid1, huid2])
    rw [this] at hcat1
    rw [hcat1] at hcat2
    exact hc hcat2
  refine ⟨⟨?_, ?_, ?_, ?_⟩, ⟨?_, ?_, ?_⟩, ?_⟩
  · intro u hu
    exact hdisj "accepted" "declined" (by decide) u
      ⟨(hmemA u).mp hu.1, (hmemD u).mp hu.2⟩
  · intro u hu
    exact hdisj "accepted" "unanswered" (by decide) u
      ⟨(hmemA u).mp hu.1, (hmemU u).mp hu.2⟩
  · intro u hu
    exact hdisj "declined" "unanswered" (by decide) u
      ⟨(hmemD u).mp hu.1, (hmemU u).mp hu.2⟩
  · intro u
    constructor
    · intro hu
      obtain ⟨r, hr, huid⟩ := List.mem_map.mp hu
      rcases answerCategory_cases r.answer with hc | hc | hc
      · exact Or.inl ((hmemA u).mpr ⟨r, hr, hc, huid⟩)
      · exact Or.inr (Or.inl ((hmemD u).mpr ⟨r, hr, hc, huid⟩))
      · exact Or.inr (Or.inr ((hmemU u).mpr ⟨r, hr, hc, huid⟩))
    · intro hu
      rcases hu with hu | hu | hu
      · obtain ⟨r, hr, _, huid⟩ := (hmemA u).mp hu
        exact List.mem_map.mpr ⟨r, hr, huid⟩
      · obtain ⟨r, hr, _, huid⟩ := (hmemD u).mp hu
        exact List.mem_map.mpr ⟨r, hr, huid⟩
      · obtain ⟨r, hr, _, huid⟩ := (hmemU u).mp hu
        exact List.mem_map.mpr ⟨r, hr, huid⟩
  · intro u
    exact hacc.mem_iff
  · intro u
    exact hdec.mem_iff
  · intro u
    exact huna.mem_iff
  · intro hinv
    apply hne
    cases hraw : raw with
    | nil => rfl
    | cons r rs =>
      rw [hraw] at hinv
      exact absurd hinv (by simp [invitedOfNested])

/-- A concrete nested-shape raw answer list for the C2 witness. -/
def rawSample : List RawAnswer :=
  [{ uid := "u1", answer := some ("accepted") },
   { uid := "u2", answer := some ("declined") },
   { uid := "u3", answer := none },
   { uid := "u4", answer := some ("waitinglist") }]

/-- The flat-shape payload carrying the same event data as `rawSample`. -/
def flatSample : FlatResponses where
  acceptedUids := ["u1"]
  declinedUids := ["u2"]
  unansweredUids := ["u3", "u4"]

/-- Witness for C2 on a concrete four-participant event given in both
shapes. -/
theorem responseSet_partition_agreement_witness :
    rawSample ≠ [] ∧
    (invitedOfNested rawSample).Nodup ∧
    List.Perm flatSample.acceptedUids (normalizeNested rawSample).accepted ∧
    List.Perm flatSample.declinedUids (normalizeNested rawSample).declined ∧
    List.Perm flatSample.unansweredUids (normalizeNested rawSample).unanswered ∧
    (partitions (normalizeNested rawSample) (invitedOfNested rawSample) ∧
     sameResponseSet (normalizeFlat flatSample) (normalizeNested rawSample) ∧
     invitedOfNested rawSample ≠ []) := by
  refine ⟨by decide, by decide, by decide, by decide, by decide, ?_⟩
  exact responseSet_partition_agreement rawSample flatSample (by decide) (by decide)
    (by decide) (by decide) (by decide)

end SpondSync
